import Mathlib

/-!
Verification of the catalog-browser core logic (`src/main.js`).

The JavaScript source is shallowly embedded:
* a `Product` is the record shape returned by the catalog endpoint
  (id, title, price, category, image); prices are modelled as rationals;
* `fetchProducts` is split into the remote layer (`Except` over a network
  outcome and the parsed JSON body) and the pure filter/sort pipeline
  `processProducts`;
* JavaScript `Array.prototype.sort`, which is required by the language
  specification to be stable for a consistent comparator, is modelled by
  the stable `List.mergeSort` with the boolean order derived from the
  comparator (`le a b ↔ comparator a b ≤ 0`);
* `String.prototype.localeCompare` is locale dependent, so it enters as an
  explicit comparator parameter `lc : String → String → Int`;
* the module-level stores (`productsState`, `visibleProductsState`,
  `filtersState`, `isLoading`) become the fields of `AppState`, and every
  handler returns, besides its final state, the trace of store writes it
  performed (one entry per `setState` call, in program order), so that the
  intermediate states at which subscribers are notified are observable.
-/

/-- A product record as returned by the catalog endpoint
(`id`, `title`, `price`, `category`, `image`). -/
structure Product where
  id : Nat
  title : String
  price : ℚ
  category : String
  image : String
deriving DecidableEq

/-- Embeds `filters.some(filter => product.category.toLowerCase() === filter.toLowerCase())`
(main.js lines 35–38). -/
def matchesFilters (filters : List String) (p : Product) : Bool :=
  filters.any fun f => p.category.toLower == f.toLower

/-- Lines 32–39: `filteredProducts = data`, replaced by
`data.filter(...)` when `filters.length > 0`. -/
def applyFilters (filters : List String) (data : List Product) : List Product :=
  if filters.length > 0 then data.filter (matchesFilters filters) else data

/-- The boolean order induced by the comparator `(a, b) => a.price - b.price`
(line 43): `a` may stay before `b` iff the comparator is `≤ 0`. -/
def priceLe (a b : Product) : Bool :=
  decide (a.price ≤ b.price)

/-- The boolean order induced by the comparator
`(a, b) => a.title.localeCompare(b.title)` (line 45), for a given locale
comparison function `lc`. -/
def nameLe (lc : String → String → Int) (a b : Product) : Bool :=
  decide (lc a.title b.title ≤ 0)

/-- Lines 42–46: `if (sortKey === "price") ... else if (sortKey === "name") ...`,
each branch a stable in-place sort; any other key leaves the list untouched. -/
def applySort (lc : String → String → Int) (sortKey : String)
    (l : List Product) : List Product :=
  if sortKey == "price" then l.mergeSort priceLe
  else if sortKey == "name" then l.mergeSort (nameLe lc)
  else l

/-- The pure body of `fetchProducts` (lines 31–48), applied to the decoded
catalog: category filtering followed by key-dependent sorting. -/
def processProducts (lc : String → String → Int) (filters : List String)
    (sortKey : String) (data : List Product) : List Product :=
  applySort lc sortKey (applyFilters filters data)

/-- Outcome of `await fetch(...)` when the promise resolves: the response
exposes its HTTP success bit `ok` and, via `response.json()`, either a decoded
product list or a JSON decoding failure (`jsonBody = none`). -/
structure HttpResponse where
  ok : Bool
  jsonBody : Option (List Product)
deriving DecidableEq

/-- An error escaping `fetchProducts`: the `fetch` promise rejected
(network failure) or `response.json()` rejected (body not valid JSON). -/
inductive JsFailure where
  | network
  | badJson
deriving DecidableEq

/-- Embeds `fetchProducts` (lines 27–49). `await fetch(...)` propagates a network
rejection; `await response.json()` propagates a decoding rejection; the code
never reads `response.ok`, so on any decoded body the filter/sort pipeline
runs and the result is returned. -/
def fetchProducts (lc : String → String → Int)
    (net : Except Unit HttpResponse) (filters : List String)
    (sortKey : String) : Except JsFailure (List Product) :=
  match net with
  | .error _ => .error .network
  | .ok resp =>
    match resp.jsonBody with
    | none => .error .badJson
    | some data => .ok (processProducts lc filters sortKey data)

/-- The filtering predicate as the specification words it: keep a product iff
the filter set is empty or its category matches some entry case-insensitively. -/
def specKeep (F : List String) (p : Product) : Bool :=
  F.isEmpty || F.any fun f => p.category.toLower == f.toLower

theorem applyFilters_eq_filter_specKeep (F : List String) (data : List Product) :
    applyFilters F data = data.filter (specKeep F) := by
  cases F with
  | nil =>
    simp only [applyFilters, List.length_nil, Nat.lt_irrefl, if_false]
    exact (List.filter_eq_self.mpr fun p _ => rfl).symm
  | cons f fs =>
    simp only [applyFilters, specKeep, List.length_cons, List.isEmpty_cons,
      Bool.false_or]
    rw [if_pos (Nat.succ_pos _)]
    rfl

theorem priceLe_trans : ∀ a b c : Product, priceLe a b → priceLe b c → priceLe a c := by
  intro a b c hab hbc
  simp only [priceLe, decide_eq_true_eq] at *
  exact le_trans hab hbc

theorem priceLe_total : ∀ a b : Product, priceLe a b || priceLe b a := by
  intro a b
  simp only [priceLe, Bool.or_eq_true, decide_eq_true_eq]
  exact le_total a.price b.price

/-- Stability of the price sort, phrased through filters: restricting the
sorted output to the products of any one price gives exactly the input
products of that price, in input order. -/
theorem mergeSort_priceLe_filter_eq (l : List Product) (v : ℚ) :
    (l.mergeSort priceLe).filter (fun p => p.price == v)
      = l.filter (fun p => p.price == v) := by
  have hpw : (l.filter (fun p => p.price == v)).Pairwise fun a b => priceLe a b := by
    refine List.pairwise_of_forall_mem_list fun a ha b hb => ?_
    have ha2 : a.price = v := by simpa using (List.mem_filter.mp ha).2
    have hb2 : b.price = v := by simpa using (List.mem_filter.mp hb).2
    simp [priceLe, ha2, hb2]
  have h1 : (l.filter (fun p => p.price == v)).Sublist (l.mergeSort priceLe) :=
    List.sublist_mergeSort priceLe_trans priceLe_total hpw (List.filter_sublist l)
  have heq : (l.filter (fun p => p.price == v)).filter (fun p => p.price == v)
      = l.filter (fun p => p.price == v) :=
    List.filter_eq_self.mpr fun a ha => (List.mem_filter.mp ha).2
  have h2 : (l.filter (fun p => p.price == v)).Sublist
      ((l.mergeSort priceLe).filter (fun p => p.price == v)) := by
    have := h1.filter (fun p => p.price == v)
    rwa [heq] at this
  have h3 : ((l.mergeSort priceLe).filter (fun p => p.price == v)).Perm
      (l.filter (fun p => p.price == v)) :=
    (List.mergeSort_perm l priceLe).filter _
  exact (h2.eq_of_length h3.length_eq.symm).symm

/-- A concrete locale comparison (codepoint lexicographic), used to
instantiate the `lc` parameter: negative, zero, positive as the first string
is smaller, equal, larger. -/
def lcLex (a b : String) : Int :=
  if a ≤ b then if b ≤ a then 0 else -1 else 1

theorem lcLex_le_zero (a b : String) : lcLex a b ≤ 0 ↔ a ≤ b := by
  by_cases hab : a ≤ b
  · by_cases hba : b ≤ a <;> simp [lcLex, hab, hba]
  · simp [lcLex, hab]

theorem lcLex_trans : ∀ a b c : String, lcLex a b ≤ 0 → lcLex b c ≤ 0 → lcLex a c ≤ 0 := by
  intro a b c h1 h2
  rw [lcLex_le_zero] at *
  exact le_trans h1 h2

theorem lcLex_total : ∀ a b : String, lcLex a b ≤ 0 ∨ lcLex b a ≤ 0 := by
  intro a b
  rw [lcLex_le_zero, lcLex_le_zero]
  exact le_total a b

theorem nameLe_trans (lc : String → String → Int)
    (htrans : ∀ a b c : String, lc a b ≤ 0 → lc b c ≤ 0 → lc a c ≤ 0) :
    ∀ a b c : Product, nameLe lc a b → nameLe lc b c → nameLe lc a c := by
  intro a b c hab hbc
  simp only [nameLe, decide_eq_true_eq] at *
  exact htrans _ _ _ hab hbc

theorem nameLe_total (lc : String → String → Int)
    (htotal : ∀ a b : String, lc a b ≤ 0 ∨ lc b a ≤ 0) :
    ∀ a b : Product, nameLe lc a b || nameLe lc b a := by
  intro a b
  simp only [nameLe, Bool.or_eq_true, decide_eq_true_eq]
  exact htotal _ _

/-- Whatever the sort key, the pipeline only permutes the filtered list. -/
theorem applySort_perm (lc : String → String → Int) (K : String)
    (l : List Product) : (applySort lc K l).Perm l := by
  unfold applySort
  split
  · exact List.mergeSort_perm l priceLe
  split
  · exact List.mergeSort_perm l (nameLe lc)
  · exact List.Perm.refl l

/-- Sample products used by the concrete witnesses below. -/
def prodShirt : Product :=
  ⟨1, "shirt", 10, "clothes", "img1"⟩

def prodRing : Product :=
  ⟨2, "ring", 5, "jewelery", "img2"⟩

def catalogW : List Product :=
  [prodShirt, prodRing]

def respW : HttpResponse :=
  ⟨true, some catalogW⟩

/-- C1: for every filter set `F` and sort key `K`, `fetchProducts` returns
exactly the catalog products whose category matches an entry of `F`
case-insensitively (all of them when `F` is empty) — a permutation of the
filtered catalog — ordered by the rule of `K`: non-decreasing price for
`"price"`, non-positive locale comparison of titles for `"name"`. -/
theorem fetchProducts_filter_and_order (lc : String → String → Int)
    (catalog : List Product) (F : List String) (K : String) (resp : HttpResponse)
    (hjson : resp.jsonBody = some catalog)
    (htrans : ∀ a b c : String, lc a b ≤ 0 → lc b c ≤ 0 → lc a c ≤ 0)
    (htotal : ∀ a b : String, lc a b ≤ 0 ∨ lc b a ≤ 0) :
    fetchProducts lc (Except.ok resp) F K
        = Except.ok (processProducts lc F K catalog)
    ∧ (processProducts lc F K catalog).Perm (catalog.filter (specKeep F))
    ∧ (∀ p : Product, specKeep F p = true ↔
        (F = [] ∨ ∃ f ∈ F, p.category.toLower = f.toLower))
    ∧ (K = "price" → (processProducts lc F K catalog).Pairwise
        fun a b => a.price ≤ b.price)
    ∧ (K = "name" → (processProducts lc F K catalog).Pairwise
        fun a b => lc a.title b.title ≤ 0) := by
  refine ⟨by simp [fetchProducts, hjson], ?_, ?_, ?_, ?_⟩
  · rw [← applyFilters_eq_filter_specKeep]
    exact applySort_perm lc K (applyFilters F catalog)
  · intro p
    cases F with
    | nil => simp [specKeep]
    | cons f fs => simp [specKeep, List.any_eq_true]
  · intro hK
    subst hK
    have hs := List.sorted_mergeSort priceLe_trans priceLe_total
      (applyFilters F catalog)
    have hdef : processProducts lc F "price" catalog
        = (applyFilters F catalog).mergeSort priceLe := by
      simp [processProducts, applySort]
    rw [hdef]
    exact hs.imp fun h => by simpa [priceLe] using h
  · intro hK
    subst hK
    have hs := List.sorted_mergeSort (nameLe_trans lc htrans) (nameLe_total lc htotal)
      (applyFilters F catalog)
    have hdef : processProducts lc F "name" catalog
        = (applyFilters F catalog).mergeSort (nameLe lc) := by
      simp [processProducts, applySort]
    rw [hdef]
    exact hs.imp fun h => by simpa [nameLe] using h

/-- Witness for C1 at a concrete comparator, catalog, filter set and key. -/
theorem fetchProducts_filter_and_order_witness :
    respW.jsonBody = some catalogW
    ∧ (fetchProducts lcLex (Except.ok respW) ["Clothes"] "name"
        = Except.ok (processProducts lcLex ["Clothes"] "name" catalogW)
    ∧ (processProducts lcLex ["Clothes"] "name" catalogW).Perm
        (catalogW.filter (specKeep ["Clothes"]))
    ∧ (∀ p : Product, specKeep ["Clothes"] p = true ↔
        (["Clothes"] = ([] : List String)
          ∨ ∃ f ∈ (["Clothes"] : List String), p.category.toLower = f.toLower))
    ∧ ("Clothes" : String) = "Clothes"
    ∧ ("name" = "price" → (processProducts lcLex ["Clothes"] "name" catalogW).Pairwise
        fun a b => a.price ≤ b.price)
    ∧ ("name" = "name" → (processProducts lcLex ["Clothes"] "name" catalogW).Pairwise
        fun a b => lcLex a.title b.title ≤ 0)) := by
  have h := fetchProducts_filter_and_order lcLex catalogW ["Clothes"] "name" respW
    rfl lcLex_trans lcLex_total
  exact ⟨rfl, h.1, h.2.1, h.2.2.1, rfl, h.2.2.2.1, h.2.2.2.2⟩

/-- C5: with sort key `"price"`, the output is non-decreasing in price on
adjacent pairs, and stable: for every price `v`, the products of price `v`
appear in the output exactly as the surviving products of price `v` appear in
the catalog. -/
theorem fetchProducts_price_sorted_and_stable (lc : String → String → Int)
    (catalog : List Product) (F : List String) :
    List.Chain' (fun a b => a.price ≤ b.price)
      (processProducts lc F "price" catalog)
    ∧ ∀ v : ℚ, (processProducts lc F "price" catalog).filter (fun p => p.price == v)
        = catalog.filter (fun p => specKeep F p && p.price == v) := by
  have hdef : processProducts lc F "price" catalog
      = (applyFilters F catalog).mergeSort priceLe := by
    simp [processProducts, applySort]
  constructor
  · rw [hdef]
    have hs := List.sorted_mergeSort priceLe_trans priceLe_total
      (applyFilters F catalog)
    exact (hs.imp fun h => by simpa [priceLe] using h).chain'
  · intro v
    rw [hdef, mergeSort_priceLe_filter_eq, applyFilters_eq_filter_specKeep,
      List.filter_filter]
    exact List.filter_congr fun p _ => by rw [Bool.and_comm]

/-- C10: for a sort key that is neither `"price"` nor `"name"`, the pipeline
returns the filtered catalog in catalog order, with no reordering. -/
theorem fetchProducts_other_key_keeps_order (lc : String → String → Int)
    (catalog : List Product) (F : List String) (K : String)
    (h1 : K ≠ "price") (h2 : K ≠ "name") :
    processProducts lc F K catalog = catalog.filter (specKeep F) := by
  have hb1 : ¬(K == "price") = true := by simpa using h1
  have hb2 : ¬(K == "name") = true := by simpa using h2
  unfold processProducts applySort
  rw [if_neg hb1, if_neg hb2, applyFilters_eq_filter_specKeep]

/-- Witness for C10 at the concrete key `"id"`. -/
theorem fetchProducts_other_key_keeps_order_witness :
    ("id" : String) ≠ "price" ∧ ("id" : String) ≠ "name"
    ∧ processProducts lcLex ["Clothes"] "id" catalogW
        = catalogW.filter (specKeep ["Clothes"]) :=
  ⟨by decide, by decide,
    fetchProducts_other_key_keeps_order lcLex catalogW ["Clothes"] "id"
      (by decide) (by decide)⟩

/-- A response with `ok = false` whose body still decodes to a product list. -/
def respBad : HttpResponse :=
  ⟨false, some catalogW⟩

/-- C4 counterexample: on a non-success response carrying a JSON product
body, `fetchProducts` does not fail — it returns the filtered, sorted list —
although the claim requires failure on every non-success response. -/
theorem fetchProducts_nonsuccess_response_succeeds :
    respBad.ok = false
    ∧ fetchProducts lcLex (Except.ok respBad) [] "price"
        = Except.ok (processProducts lcLex [] "price" catalogW) :=
  ⟨rfl, rfl⟩

/-- C4 amended: `fetchProducts` fails exactly when the network request itself
fails or the response body is not decodable JSON; the HTTP success bit of the
response is never inspected. -/
theorem fetchProducts_failure_iff (lc : String → String → Int)
    (net : Except Unit HttpResponse) (F : List String) (K : String) :
    (∃ e, fetchProducts lc net F K = Except.error e)
      ↔ (net = Except.error () ∨ ∃ r, net = Except.ok r ∧ r.jsonBody = none) := by
  cases net with
  | error u =>
    cases u
    simp [fetchProducts]
  | ok r =>
    cases hr : r.jsonBody with
    | none => simp [fetchProducts, hr]
    | some data => simp [fetchProducts, hr]

/-- The four module-level stores (lines 19–22) as one state record. -/
structure AppState where
  products : List Product
  visible : List Product
  filters : List String
  loading : Bool
deriving DecidableEq

/-- Which store a `setState` call wrote. -/
inductive StoreId where
  | products
  | visible
  | filters
  | loading
deriving DecidableEq

/-- One entry per `setState` call in program order: the store written and the
state at the moment that store's subscribers are notified. -/
abbrev WriteTrace := List (StoreId × AppState)

/-- Embeds `handleFilterChange` (lines 104–125): set loading, store the checked
filters, fetch with the just-stored filters and the dropdown key, then on
success store the products, clear loading, and reset the window to the first
10; an awaited rejection aborts after the first two writes. -/
def handleFilterChange (lc : String → String → Int)
    (net : Except Unit HttpResponse) (σ : AppState)
    (selectedFilters : List String) (sortedBy : String) :
    AppState × WriteTrace :=
  let σ1 : AppState := { σ with loading := true }
  let σ2 : AppState := { σ1 with filters := selectedFilters }
  match fetchProducts lc net σ2.filters sortedBy with
  | .error _ => (σ2, [(.loading, σ1), (.filters, σ2)])
  | .ok updatedProducts =>
    let σ3 : AppState := { σ2 with products := updatedProducts }
    let σ4 : AppState := { σ3 with loading := false }
    let σ5 : AppState := { σ4 with visible := updatedProducts.take 10 }
    (σ5, [(.loading, σ1), (.filters, σ2), (.products, σ3), (.loading, σ4),
      (.visible, σ5)])

/-- Embeds `handleSortChange` (lines 128–140): fetch with the stored filters and the
dropdown key, then store the products and reset the window to the first 10;
the loading store is never written; an awaited rejection aborts before any
write. -/
def handleSortChange (lc : String → String → Int)
    (net : Except Unit HttpResponse) (σ : AppState) (sortedBy : String) :
    AppState × WriteTrace :=
  match fetchProducts lc net σ.filters sortedBy with
  | .error _ => (σ, [])
  | .ok updatedProducts =>
    let σ1 : AppState := { σ with products := updatedProducts }
    let σ2 : AppState := { σ1 with visible := updatedProducts.take 10 }
    (σ2, [(.products, σ1), (.visible, σ2)])

/-- Embeds `init` (lines 143–153): set loading, fetch with the default arguments
(no filters, key `"price"`), then store the products, reset the window to the
first 10, and clear loading; an awaited rejection aborts after the first
write. -/
def init (lc : String → String → Int) (net : Except Unit HttpResponse)
    (σ : AppState) : AppState × WriteTrace :=
  let σ1 : AppState := { σ with loading := true }
  match fetchProducts lc net [] "price" with
  | .error _ => (σ1, [(.loading, σ1)])
  | .ok initialProducts =>
    let σ2 : AppState := { σ1 with products := initialProducts }
    let σ3 : AppState := { σ2 with visible := initialProducts.take 10 }
    let σ4 : AppState := { σ3 with loading := false }
    (σ4, [(.loading, σ1), (.products, σ2), (.visible, σ3), (.loading, σ4)])

/-- Embeds `loadMoreProducts` (lines 87–101): append
`allProducts.slice(visible.length, visible.length + 10)` to the window. -/
def loadMoreProducts (σ : AppState) : AppState × WriteTrace :=
  let nextProducts := (σ.products.drop σ.visible.length).take 10
  let σ1 : AppState := { σ with visible := σ.visible ++ nextProducts }
  (σ1, [(.visible, σ1)])

/-- The state transformation of one load-more click. -/
def loadMoreStep (σ : AppState) : AppState :=
  (loadMoreProducts σ).1

theorem loadMoreStep_products (σ : AppState) :
    (loadMoreStep σ).products = σ.products := rfl

theorem loadMoreStep_visible_length (σ : AppState) :
    (loadMoreStep σ).visible.length
      = σ.visible.length + min 10 (σ.products.length - σ.visible.length) := by
  simp [loadMoreStep, loadMoreProducts]

theorem iterate_loadMoreStep_length (N : ℕ) :
    ∀ σ : AppState, σ.visible.length ≤ σ.products.length →
      ((loadMoreStep)^[N] σ).visible.length
        = min (σ.visible.length + 10 * N) σ.products.length := by
  induction N with
  | zero =>
    intro σ h
    simpa using (Nat.min_eq_left h).symm
  | succ n ih =>
    intro σ h
    rw [Function.iterate_succ_apply]
    have h1 := loadMoreStep_visible_length σ
    have h2 : (loadMoreStep σ).products.length = σ.products.length := by
      rw [loadMoreStep_products]
    have h3 : (loadMoreStep σ).visible.length ≤ (loadMoreStep σ).products.length := by
      omega
    rw [ih (loadMoreStep σ) h3, h1, h2]
    omega

theorem fetchProducts_ok (lc : String → String → Int) (resp : HttpResponse)
    (data : List Product) (F : List String) (K : String)
    (hjson : resp.jsonBody = some data) :
    fetchProducts lc (Except.ok resp) F K
      = Except.ok (processProducts lc F K data) := by
  simp [fetchProducts, hjson]

theorem handleFilterChange_final_ok (lc : String → String → Int)
    (net : Except Unit HttpResponse) (σ : AppState)
    (selectedFilters : List String) (sortedBy : String) (u : List Product)
    (h : fetchProducts lc net selectedFilters sortedBy = Except.ok u) :
    (handleFilterChange lc net σ selectedFilters sortedBy).1
      = ⟨u, u.take 10, selectedFilters, false⟩ := by
  simp [handleFilterChange, h]

theorem handleSortChange_final_ok (lc : String → String → Int)
    (net : Except Unit HttpResponse) (σ : AppState) (sortedBy : String)
    (u : List Product)
    (h : fetchProducts lc net σ.filters sortedBy = Except.ok u) :
    (handleSortChange lc net σ sortedBy).1
      = ⟨u, u.take 10, σ.filters, σ.loading⟩ := by
  simp [handleSortChange, h]

theorem init_final_ok (lc : String → String → Int)
    (net : Except Unit HttpResponse) (σ : AppState) (u : List Product)
    (h : fetchProducts lc net [] "price" = Except.ok u) :
    (init lc net σ).1 = ⟨u, u.take 10, σ.filters, false⟩ := by
  simp [init, h]

/-- C2: starting from a window of the first 10 items of the stored full
sequence `P`, `N` load-more clicks leave the window at length
`min (10 + 10 * N) P.length`; and each of filter change, sort change and
initialization, when its fetch succeeds, restarts the window at the first 10
items of the sequence it stores. -/
theorem visible_window_length_law (lc : String → String → Int)
    (net : Except Unit HttpResponse) (resp : HttpResponse) (data : List Product)
    (σ σs : AppState) (P : List Product) (N : ℕ)
    (selectedFilters : List String) (sortedBy : String)
    (hp : σ.products = P) (hv : σ.visible = P.take 10)
    (hnet : net = Except.ok resp) (hjson : resp.jsonBody = some data) :
    ((loadMoreStep)^[N] σ).visible.length = min (10 + 10 * N) P.length
    ∧ (handleFilterChange lc net σs selectedFilters sortedBy).1.visible
        = (handleFilterChange lc net σs selectedFilters sortedBy).1.products.take 10
    ∧ (handleSortChange lc net σs sortedBy).1.visible
        = (handleSortChange lc net σs sortedBy).1.products.take 10
    ∧ (init lc net σs).1.visible = (init lc net σs).1.products.take 10 := by
  subst hnet
  refine ⟨?_, ?_, ?_, ?_⟩
  · have hle : σ.visible.length ≤ σ.products.length := by
      rw [hp, hv, List.length_take]
      omega
    rw [iterate_loadMoreStep_length N σ hle, hp, hv, List.length_take]
    omega
  · rw [handleFilterChange_final_ok lc (Except.ok resp) σs selectedFilters sortedBy
      (processProducts lc selectedFilters sortedBy data)
      (fetchProducts_ok lc resp data selectedFilters sortedBy hjson)]
  · rw [handleSortChange_final_ok lc (Except.ok resp) σs sortedBy
      (processProducts lc σs.filters sortedBy data)
      (fetchProducts_ok lc resp data σs.filters sortedBy hjson)]
  · rw [init_final_ok lc (Except.ok resp) σs
      (processProducts lc [] "price" data)
      (fetchProducts_ok lc resp data [] "price" hjson)]

/-- A start state whose window is the first page of `catalogW`. -/
def stateW : AppState :=
  ⟨catalogW, catalogW.take 10, [], false⟩

/-- Witness for C2 at a concrete state, catalog and `N = 1`. -/
theorem visible_window_length_law_witness :
    stateW.products = catalogW ∧ stateW.visible = catalogW.take 10
    ∧ (Except.ok respW : Except Unit HttpResponse) = Except.ok respW
    ∧ respW.jsonBody = some catalogW
    ∧ (((loadMoreStep)^[1] stateW).visible.length = min (10 + 10 * 1) catalogW.length
    ∧ (handleFilterChange lcLex (Except.ok respW) stateW ["Clothes"] "price").1.visible
        = (handleFilterChange lcLex (Except.ok respW) stateW ["Clothes"] "price").1.products.take 10
    ∧ (handleSortChange lcLex (Except.ok respW) stateW "price").1.visible
        = (handleSortChange lcLex (Except.ok respW) stateW "price").1.products.take 10
    ∧ (init lcLex (Except.ok respW) stateW).1.visible
        = (init lcLex (Except.ok respW) stateW).1.products.take 10) :=
  ⟨rfl, rfl, rfl, rfl,
    visible_window_length_law lcLex (Except.ok respW) respW catalogW stateW stateW
      catalogW 1 ["Clothes"] "price" rfl rfl rfl rfl⟩

theorem fetchProducts_error_swap (lc lc2 : String → String → Int)
    (net : Except Unit HttpResponse) (F F2 : List String) (K K2 : String)
    (e : JsFailure) (h : fetchProducts lc net F K = Except.error e) :
    fetchProducts lc2 net F2 K2 = Except.error e := by
  cases net with
  | error u =>
    simp only [fetchProducts] at h ⊢
    exact h
  | ok r =>
    cases hr : r.jsonBody with
    | none =>
      simp only [fetchProducts, hr] at h ⊢
      exact h
    | some d =>
      simp [fetchProducts, hr] at h

theorem handleFilterChange_final_error (lc : String → String → Int)
    (net : Except Unit HttpResponse) (σ : AppState)
    (selectedFilters : List String) (sortedBy : String) (e : JsFailure)
    (h : fetchProducts lc net selectedFilters sortedBy = Except.error e) :
    (handleFilterChange lc net σ selectedFilters sortedBy).1
      = ⟨σ.products, σ.visible, selectedFilters, true⟩ := by
  simp [handleFilterChange, h]

theorem handleSortChange_final_error (lc : String → String → Int)
    (net : Except Unit HttpResponse) (σ : AppState) (sortedBy : String)
    (e : JsFailure)
    (h : fetchProducts lc net σ.filters sortedBy = Except.error e) :
    (handleSortChange lc net σ sortedBy).1 = σ := by
  simp [handleSortChange, h]

theorem init_final_error (lc : String → String → Int)
    (net : Except Unit HttpResponse) (σ : AppState) (e : JsFailure)
    (h : fetchProducts lc net [] "price" = Except.error e) :
    (init lc net σ).1 = ⟨σ.products, σ.visible, σ.filters, true⟩ := by
  simp [init, h]

/-- The invariant claimed in the specification: the window is an
index-by-index prefix of the stored full sequence, and never longer. -/
def windowInvariant (σ : AppState) : Prop :=
  σ.visible <+: σ.products ∧ σ.visible.length ≤ σ.products.length

instance (σ : AppState) : Decidable (windowInvariant σ) := by
  unfold windowInvariant
  infer_instance

/-- C3 counterexample: within one filter change, at the write to the products
store (and again at the clearing of the loading store), the not-yet-reset
window is not a prefix of the just-stored full sequence, so the invariant
fails at an observable notification point. -/
theorem window_prefix_violated_mid_filter_change :
    ¬ ∀ e ∈ (handleFilterChange lcLex (Except.ok respW)
        ⟨[prodRing], [prodRing], [], false⟩ [] "relevance").2,
      windowInvariant e.2 := by
  decide

theorem windowInvariant_take10 (u : List Product) (fl : List String) (b : Bool) :
    windowInvariant ⟨u, u.take 10, fl, b⟩ := by
  have hp := List.take_prefix 10 u
  exact ⟨hp, hp.length_le⟩

/-- C3 amended: the window invariant holds at the end of every complete
operation — established by a completed filter change, sort change or
initialization, and preserved by aborted ones and by load-more — though it
can be violated transiently at notification points inside a filter or sort
change (see the counterexample). -/
theorem windowInvariant_after_each_operation (lc : String → String → Int)
    (net : Except Unit HttpResponse) (σ : AppState)
    (selectedFilters : List String) (sortedBy : String)
    (h : windowInvariant σ) :
    windowInvariant (handleFilterChange lc net σ selectedFilters sortedBy).1
    ∧ windowInvariant (handleSortChange lc net σ sortedBy).1
    ∧ windowInvariant (init lc net σ).1
    ∧ windowInvariant (loadMoreStep σ) := by
  refine ⟨?_, ?_, ?_, ?_⟩
  · cases hf : fetchProducts lc net selectedFilters sortedBy with
    | error e =>
      rw [handleFilterChange_final_error lc net σ selectedFilters sortedBy e hf]
      exact ⟨h.1, h.2⟩
    | ok u =>
      rw [handleFilterChange_final_ok lc net σ selectedFilters sortedBy u hf]
      exact windowInvariant_take10 u selectedFilters false
  · cases hf : fetchProducts lc net σ.filters sortedBy with
    | error e =>
      rw [handleSortChange_final_error lc net σ sortedBy e hf]
      exact h
    | ok u =>
      rw [handleSortChange_final_ok lc net σ sortedBy u hf]
      exact windowInvariant_take10 u σ.filters σ.loading
  · cases hf : fetchProducts lc net [] "price" with
    | error e =>
      rw [init_final_error lc net σ e hf]
      exact ⟨h.1, h.2⟩
    | ok u =>
      rw [init_final_ok lc net σ u hf]
      exact windowInvariant_take10 u σ.filters false
  · obtain ⟨t, ht⟩ := h.1
    have hd : σ.products.drop σ.visible.length = t := by
      rw [← ht, List.drop_left]
    have hpre : (loadMoreStep σ).visible <+: (loadMoreStep σ).products := by
      show σ.visible ++ (σ.products.drop σ.visible.length).take 10 <+: σ.products
      rw [hd, ← ht]
      exact ⟨t.drop 10, by rw [List.append_assoc, List.take_append_drop]⟩
    exact ⟨hpre, hpre.length_le⟩

/-- Witness for the amended C3 at a concrete state and fetch environment. -/
theorem windowInvariant_after_each_operation_witness :
    windowInvariant stateW
    ∧ (windowInvariant (handleFilterChange lcLex (Except.ok respW) stateW ["Clothes"] "price").1
    ∧ windowInvariant (handleSortChange lcLex (Except.ok respW) stateW "price").1
    ∧ windowInvariant (init lcLex (Except.ok respW) stateW).1
    ∧ windowInvariant (loadMoreStep stateW)) :=
  ⟨by decide,
    windowInvariant_after_each_operation lcLex (Except.ok respW) stateW
      ["Clothes"] "price" (by decide)⟩

/-- C8: a complete sort change never writes the loading store: the flag ends
with its starting value and no write event for the loading store occurs, so
no loading-store subscriber is notified by it. -/
theorem handleSortChange_no_loading_write (lc : String → String → Int)
    (net : Except Unit HttpResponse) (σ : AppState) (sortedBy : String) :
    (handleSortChange lc net σ sortedBy).1.loading = σ.loading
    ∧ ∀ e ∈ (handleSortChange lc net σ sortedBy).2, e.1 ≠ StoreId.loading := by
  cases hf : fetchProducts lc net σ.filters sortedBy with
  | error e =>
    refine ⟨by rw [handleSortChange_final_error lc net σ sortedBy e hf], ?_⟩
    intro ev hev
    have ht : (handleSortChange lc net σ sortedBy).2 = [] := by
      simp [handleSortChange, hf]
    rw [ht] at hev
    simp at hev
  | ok u =>
    refine ⟨by rw [handleSortChange_final_ok lc net σ sortedBy u hf], ?_⟩
    intro ev hev
    have ht : (handleSortChange lc net σ sortedBy).2
        = [(StoreId.products, ⟨u, σ.visible, σ.filters, σ.loading⟩),
           (StoreId.visible, ⟨u, u.take 10, σ.filters, σ.loading⟩)] := by
      simp [handleSortChange, hf]
    rw [ht] at hev
    simp only [List.mem_cons, List.not_mem_nil, or_false] at hev
    rcases hev with h1 | h1 <;> subst h1 <;> simp

/-- C7: a fetch rejection aborts the running sequence: a filter change keeps
the previous products and window, leaving loading true (it was set before the
call) and the just-read filters stored; initialization keeps products, window
and filters, leaving loading true; a sort change leaves the state untouched,
its loading flag in particular unchanged. -/
theorem fetch_failure_aborts (lc : String → String → Int)
    (net : Except Unit HttpResponse) (σ : AppState)
    (selectedFilters : List String) (sortedBy : String) (e : JsFailure)
    (h : fetchProducts lc net selectedFilters sortedBy = Except.error e) :
    (handleFilterChange lc net σ selectedFilters sortedBy).1
        = ⟨σ.products, σ.visible, selectedFilters, true⟩
    ∧ (init lc net σ).1 = ⟨σ.products, σ.visible, σ.filters, true⟩
    ∧ (handleSortChange lc net σ sortedBy).1 = σ :=
  ⟨handleFilterChange_final_error lc net σ selectedFilters sortedBy e h,
   init_final_error lc net σ e
     (fetchProducts_error_swap lc lc net selectedFilters [] sortedBy "price" e h),
   handleSortChange_final_error lc net σ sortedBy e
     (fetchProducts_error_swap lc lc net selectedFilters σ.filters sortedBy sortedBy e h)⟩

/-- Witness for C7 at a concrete state and a rejected fetch. -/
theorem fetch_failure_aborts_witness :
    fetchProducts lcLex (Except.error ()) ["Clothes"] "price"
        = Except.error JsFailure.network
    ∧ ((handleFilterChange lcLex (Except.error ()) stateW ["Clothes"] "price").1
        = ⟨stateW.products, stateW.visible, ["Clothes"], true⟩
    ∧ (init lcLex (Except.error ()) stateW).1
        = ⟨stateW.products, stateW.visible, stateW.filters, true⟩
    ∧ (handleSortChange lcLex (Except.error ()) stateW "price").1 = stateW) :=
  ⟨rfl, fetch_failure_aborts lcLex (Except.error ()) stateW ["Clothes"] "price"
    JsFailure.network rfl⟩

/-- One rendered product card (lines 66–81): image, title, formatted price,
and the static wishlist glyph. -/
structure Card where
  image : String
  title : String
  priceText : String
  wishlist : String
deriving DecidableEq

/-- What the products container ends up holding: the loading placeholder
(line 60) or one card per visible product (lines 64–83). -/
inductive RenderBody where
  | loadingIndicator
  | cards (cs : List Card)
deriving DecidableEq

/-- The DOM effect of one `renderProducts` run: the results counter text and
the container contents. -/
structure RenderOutput where
  resultsText : String
  body : RenderBody
deriving DecidableEq

/-- Embeds `product.price.toFixed(2)` (line 75) for the non-negative prices of the
data model: round to a whole number of cents (half away from zero upward) and
print the whole part, a dot, and the two fraction digits. -/
def formatPrice2 (q : ℚ) : String :=
  let cents : Int := ⌊q * 100 + 1 / 2⌋
  toString (cents / 100) ++ "." ++ toString (cents % 100 / 10)
    ++ toString (cents % 100 % 10)

/-- The card template (lines 66–81) applied to one product. -/
def productCard (p : Product) : Card :=
  ⟨p.image, p.title, formatPrice2 p.price, "♡"⟩

/-- Embeds `renderProducts` (lines 52–84) as a function of the two stores it reads:
it always writes the results counter from the window length (line 57), then
either shows the loading placeholder and returns, or renders the cards. -/
def renderProducts (visible : List Product) (loading : Bool) : RenderOutput :=
  let resultsText := toString visible.length ++ " Results"
  if loading then ⟨resultsText, .loadingIndicator⟩
  else ⟨resultsText, .cards (visible.map productCard)⟩

/-- C6: rendering with the loading flag set shows the loading indicator and
renders no cards; with it clear it renders exactly one card per product of
the window, carrying that product's image, title, price formatted to two
decimals, and the wishlist glyph; in both cases the results counter shows the
window's length. -/
theorem renderProducts_contract (visible : List Product) :
    (renderProducts visible true).body = RenderBody.loadingIndicator
    ∧ (renderProducts visible false).body
        = RenderBody.cards (visible.map productCard)
    ∧ (∀ b : Bool, (renderProducts visible b).resultsText
        = toString visible.length ++ " Results")
    ∧ (visible.map productCard).length = visible.length
    ∧ ∀ p ∈ visible, productCard p
        = ⟨p.image, p.title, formatPrice2 p.price, "♡"⟩ := by
  refine ⟨rfl, rfl, ?_, by simp, fun p _ => rfl⟩
  intro b
  cases b <;> rfl

/-- Embeds `createState` (lines 2–16): a current value and the registered
listeners, in registration order. -/
structure Store (α : Type) (L : Type) where
  state : α
  listeners : List L

/-- Embeds `getState` (line 7). -/
def getState {α L : Type} (s : Store α L) : α :=
  s.state

/-- Embeds `subscribe` (lines 12–14): `listeners.push(listener)` — an unconditional
append, with no duplicate check and no unregistration. -/
def subscribe {α L : Type} (s : Store α L) (listener : L) : Store α L :=
  ⟨s.state, s.listeners ++ [listener]⟩

/-- Embeds `setState` (lines 8–11): replace the value, then call every entry of
`listeners` once, in order; the second component is the sequence of listener
invocations this write performs. -/
def setState {α L : Type} (s : Store α L) (newState : α) :
    Store α L × List L :=
  (⟨newState, s.listeners⟩, s.listeners)

/-- C9 counterexample: after subscribing the same listener twice, a single
write invokes it twice, not once. -/
theorem double_subscribe_double_invoke :
    ((setState (subscribe (subscribe (⟨0, []⟩ : Store Nat Nat) 7) 7) 1).2.count 7 = 2)
    ∧ ¬ ((setState (subscribe (subscribe (⟨0, []⟩ : Store Nat Nat) 7) 7) 1).2.count 7 = 1) := by
  decide

/-- C9 amended: notification is once per registration, and registration is
unconditional: subscribing the same listener twice makes one write invoke it
two more times than its prior registrations, subscribing it once one more
time, and a write notifies exactly the registered listeners in order. -/
theorem setState_invokes_once_per_registration {α L : Type} [DecidableEq L]
    (s : Store α L) (f : L) (v : α) :
    (setState (subscribe (subscribe s f) f) v).2.count f
        = s.listeners.count f + 2
    ∧ (setState (subscribe s f) v).2.count f = s.listeners.count f + 1
    ∧ (setState s v).2 = s.listeners := by
  refine ⟨?_, ?_, rfl⟩ <;>
    simp [setState, subscribe, List.count_append]
